import Mathlib

/-!
Verification development for the `value-log` crate's core modules
(`manifest.rs`, `version.rs`, `compression.rs`, `serde.rs`).

Shallow embedding conventions:
- Bytes are `Nat` values in `[0, 255]`; byte strings are `List Nat`.
- Machine integers (`u64`, `u16`, `u8`) are `Nat`s; where the Rust code
  truncates, the truncation `% 2 ^ 64` is explicit or arises from the
  byte-extraction arithmetic itself.
- Filesystem paths are `List String` (path components); `Path::parent`
  is `List.dropLast`.
- Fallible Rust code returning `crate::Result` is embedded in
  `Except VlogError`; code that can additionally panic via `expect`
  is embedded in the three-valued `Outcome` type.
- Effectful file-system code (`rewrite_atomic`) is embedded as the trace
  of file-system operations it performs, in order.
- `f32` arithmetic in `stale_ratio` / `space_amp` is idealized as exact
  rational (`ℚ`) arithmetic; the branch structure of the code is kept
  exactly.
-/

/-- Errors of the value log (from `error.rs`); only the variants reachable
from the embedded code are modelled. -/
inductive VlogError where
  | ioError
deriving DecidableEq, Repr

/-- Big-endian encoding of a `u64` (byteorder's `write_u64::<BigEndian>`).
For `n ≥ 2 ^ 64` this encodes `n % 2 ^ 64`, matching `as u64` truncation. -/
def u64be (n : Nat) : List Nat :=
  [n / 2 ^ 56 % 256, n / 2 ^ 48 % 256, n / 2 ^ 40 % 256, n / 2 ^ 32 % 256,
   n / 2 ^ 24 % 256, n / 2 ^ 16 % 256, n / 2 ^ 8 % 256, n % 256]

/-- Big-endian encoding of a `u16` (byteorder's `write_u16::<BigEndian>`). -/
def u16be (n : Nat) : List Nat :=
  [n / 2 ^ 8 % 256, n % 256]

/-- Reads a big-endian `u64` from a cursor (byteorder's
`read_u64::<BigEndian>`): consumes 8 bytes or fails with an
unexpected-end-of-file I/O error. -/
def readU64BE : List Nat → Except VlogError (Nat × List Nat)
  | b0 :: b1 :: b2 :: b3 :: b4 :: b5 :: b6 :: b7 :: rest =>
    .ok (b0 * 2 ^ 56 + b1 * 2 ^ 48 + b2 * 2 ^ 40 + b3 * 2 ^ 32 +
         b4 * 2 ^ 24 + b5 * 2 ^ 16 + b6 * 2 ^ 8 + b7, rest)
  | _ => .error .ioError

/-- Reads a big-endian `u16` from a 2-byte buffer (byteorder's
`read_u16::<BigEndian>` in `Version::parse_file_header`; the buffer there
always has exactly 2 bytes). -/
def readU16BE : List Nat → Option Nat
  | a :: b :: _ => some (a * 2 ^ 8 + b)
  | _ => none

/-- Rust slice indexing `bytes.get(a..b)`: `Some` of the sub-slice iff the
range is in bounds. -/
def sliceGet (bytes : List Nat) (a b : Nat) : Option (List Nat) :=
  if a ≤ b ∧ b ≤ bytes.length then some ((bytes.drop a).take (b - a)) else none

/-- Disk format version (from `version.rs`). -/
inductive Version where
  | V1
deriving DecidableEq, Repr

/-- `impl From<Version> for u16` in `version.rs`. -/
def Version.toU16 : Version → Nat
  | .V1 => 1

/-- `impl TryFrom<u16> for Version` in `version.rs`, composed with
`Result::ok` as at the call site in `parse_file_header`. -/
def Version.tryFromU16 (value : Nat) : Option Version :=
  if value = 1 then some .V1 else none

/-- The 3-byte magic `b"VLG"` of `version.rs`. -/
def MAGIC_BYTES : List Nat := [86, 76, 71]

/-- `Version::parse_file_header` from `version.rs`: slice out bytes 0..3,
compare with the magic, slice out bytes 3..5, read a big-endian `u16`,
and convert it to a `Version`. -/
def Version.parse_file_header (bytes : List Nat) : Option Version :=
  match sliceGet bytes 0 3 with
  | none => none
  | some first_three =>
    if first_three = MAGIC_BYTES then
      match sliceGet bytes 3 5 with
      | none => none
      | some next_two =>
        match readU16BE next_two with
        | none => none
        | some value => Version.tryFromU16 value
    else
      none

/-- `Version::write_file_header` from `version.rs`: the bytes appended to
the writer (magic, then big-endian `u16` version), and the returned
`Ok(5)`. -/
def Version.write_file_header (v : Version) : List Nat × Nat :=
  (MAGIC_BYTES ++ u16be v.toU16, 5)

/-- Compression type (from `compression.rs`), with the `lz4` and `miniz`
features enabled as the spec assumes. -/
inductive CompressionType where
  | None
  | Lz4
  | Miniz
deriving DecidableEq, Repr

/-- `impl From<CompressionType> for u8` in `compression.rs`. -/
def CompressionType.toU8 : CompressionType → Nat
  | .None => 0
  | .Lz4 => 1
  | .Miniz => 2

/-- `impl TryFrom<u8> for CompressionType` in `compression.rs` (its error
type is `()`). -/
def CompressionType.tryFromU8 (value : Nat) : Except Unit CompressionType :=
  if value = 0 then .ok .None
  else if value = 1 then .ok .Lz4
  else if value = 2 then .ok .Miniz
  else .error ()

/-- Per-segment statistics (from `segment/stats.rs`, as used by
`manifest.rs`); the `AtomicU64` stale counters are plain `Nat`s here. -/
structure Stats where
  item_count : Nat
  total_bytes : Nat
  total_uncompressed_bytes : Nat
  stale_items : Nat
  stale_bytes : Nat
deriving DecidableEq, Repr

/-- `Stats::default()`: every counter zero. -/
def Stats.default : Stats := ⟨0, 0, 0, 0, 0⟩

/-- In-memory segment descriptor (from `segment/mod.rs`, as used by
`manifest.rs`). -/
structure Segment where
  id : Nat
  path : List String
  stats : Stats
deriving DecidableEq, Repr

/-- The `SEGMENTS_FOLDER` constant of `manifest.rs`. -/
def SEGMENTS_FOLDER : String := "segments"

/-- The `MANIFEST_FILE` constant of `manifest.rs`. -/
def MANIFEST_FILE : String := "vlog_manifest"

/-- File-system operations performed by `rewrite_atomic` in `manifest.rs`;
`syncTempFile` (an fsync of the temporary file before the rename) is in
the vocabulary so that its absence from a trace can be stated. -/
inductive FsOp where
  | createTempIn (folder : List String)
  | writeTempAll (content : List Nat)
  | syncTempFile
  | persistTemp (path : List String)
  | openFile (path : List String)
  | syncAll (path : List String)
deriving DecidableEq, Repr

/-- Trace of `rewrite_atomic(path, content)` from `manifest.rs`: create a
named temp file in `path`'s parent directory, write all the content bytes,
`persist` (rename) it over `path`, and — unless compiled for Windows —
open the destination and `sync_all` it. No other operation is performed. -/
def rewrite_atomic (windows : Bool) (path : List String) (content : List Nat) :
    List FsOp :=
  [FsOp.createTempIn path.dropLast, FsOp.writeTempAll content,
   FsOp.persistTemp path] ++
    (if windows then [] else [FsOp.openFile path, FsOp.syncAll path])

/-- The manifest bytes built by `SegmentManifest::write_to_disk`: a
big-endian `u64` count followed by each id as a big-endian `u64`. -/
def write_to_disk_bytes (segment_ids : List Nat) : List Nat :=
  u64be segment_ids.length ++ (segment_ids.map u64be).flatten

/-- Trace of `SegmentManifest::write_to_disk(path, segment_ids)`: build the
manifest bytes, then `rewrite_atomic` them over `path`. -/
def write_to_disk (windows : Bool) (path : List String) (segment_ids : List Nat) :
    List FsOp :=
  rewrite_atomic windows path (write_to_disk_bytes segment_ids)

/-- The body of the `for _ in 0..cnt` loop of
`SegmentManifest::load_ids_from_disk`: read `cnt` big-endian `u64` ids
from the cursor, in order. -/
def readIds : Nat → List Nat → Except VlogError (List Nat × List Nat)
  | 0, rest => .ok ([], rest)
  | cnt + 1, rest =>
    match readU64BE rest with
    | .error e => .error e
    | .ok (id, rest') =>
      match readIds cnt rest' with
      | .error e => .error e
      | .ok (ids, rest'') => .ok (id :: ids, rest'')

/-- `SegmentManifest::load_ids_from_disk` from `manifest.rs`, applied to the
bytes read from the manifest file: read the `u64` count, then that many
`u64` ids; bytes past the last id are never looked at. -/
def load_ids_from_disk (bytes : List Nat) : Except VlogError (List Nat) :=
  match readU64BE bytes with
  | .error e => .error e
  | .ok (cnt, rest) =>
    match readIds cnt rest with
    | .error e => .error e
    | .ok (ids, _) => .ok ids

/-- A directory entry under `segments/` as `remove_unfinished_segments`
sees it; `name = none` stands for a file name that is not valid UTF-8
(where `OsStr::to_str` returns `None`). -/
structure Dirent where
  name : Option String
  isDir : Bool
deriving DecidableEq, Repr

/-- Rust `u64::from_str` on a directory-name string: an optional leading
`+`, then one or more ASCII digits, with the decimal value fitting in a
`u64`. -/
def parseU64 (s : String) : Option Nat :=
  let cs := match s.data with
    | '+' :: rest => rest
    | cs => cs
  if cs ≠ [] ∧ cs.all (fun c => '0' ≤ c ∧ c ≤ '9') then
    let v := cs.foldl (fun a c => a * 10 + (c.toNat - 48)) 0
    if v < 2 ^ 64 then some v else none
  else none

/-- Result of embedded Rust code that can return `Ok`, return `Err`, or
panic (via `expect`). -/
inductive Outcome (ε α : Type) where
  | ok (a : α)
  | err (e : ε)
  | panic
deriving DecidableEq, Repr

/-- `SegmentManifest::remove_unfinished_segments` from `manifest.rs`: walk
the directory entries in order; for each entry that is a directory, parse
its file name as a `u64` (panicking via `expect` on invalid UTF-8 or on a
name that does not parse), and remove the directory from disk when its id
is not among the registered ids. Returns the entries still on disk. -/
def remove_unfinished_segments :
    List Dirent → List Nat → Outcome VlogError (List Dirent)
  | [], _ => .ok []
  | d :: rest, registered_ids =>
    if d.isDir then
      match d.name with
      | none => .panic
      | some s =>
        match parseU64 s with
        | none => .panic
        | some segment_id =>
          if registered_ids.contains segment_id then
            match remove_unfinished_segments rest registered_ids with
            | .ok kept => .ok (d :: kept)
            | .err e => .err e
            | .panic => .panic
          else
            remove_unfinished_segments rest registered_ids
    else
      match remove_unfinished_segments rest registered_ids with
      | .ok kept => .ok (d :: kept)
      | .err e => .err e
      | .panic => .panic

/-- Characterization of which directory entries
`remove_unfinished_segments` leaves on disk: non-directories are never
touched, and a directory survives exactly when its name parses to a
registered id. -/
def direntKept (registered : List Nat) (d : Dirent) : Bool :=
  !d.isDir ||
    (match d.name with
     | some n =>
       (match parseU64 n with
        | some k => registered.contains k
        | none => false)
     | none => false)

/-- `HashMap::insert` on the id-to-segment map: replace any existing entry
for the key, otherwise add one (entry order in the model is immaterial,
as `HashMap` iteration order is unspecified). -/
def hmInsert (m : List (Nat × Segment)) (k : Nat) (v : Segment) :
    List (Nat × Segment) :=
  m.filter (fun p => p.1 ≠ k) ++ [(k, v)]

/-- `HashMap::get` on the id-to-segment map. -/
def hmGet (m : List (Nat × Segment)) (k : Nat) : Option Segment :=
  (m.find? (fun p => p.1 = k)).map (·.2)

/-- The map-building loop of `SegmentManifest::recover`: for each recovered
id, insert a `Segment` with path `segments_folder/<id>` and
`Stats::default()`. -/
def buildSegmentMap (segments_folder : List String) (ids : List Nat) :
    List (Nat × Segment) :=
  ids.foldl
    (fun map id =>
      hmInsert map id ⟨id, segments_folder ++ [toString id], Stats.default⟩)
    []

/-- The state held by `SegmentManifestInner` after `recover`. -/
structure SegmentManifestState where
  path : List String
  segments : List (Nat × Segment)
deriving DecidableEq, Repr

/-- `SegmentManifest::recover(folder)` from `manifest.rs`, over the
manifest file's bytes and the directory entries under
`folder/segments`: load the ids, sweep unfinished segment directories,
and build the in-memory segment map. Returns the manifest state together
with the directory entries still on disk. -/
def recover (folder : List String) (manifestBytes : List Nat)
    (dirents : List Dirent) :
    Outcome VlogError (SegmentManifestState × List Dirent) :=
  match load_ids_from_disk manifestBytes with
  | .error e => .err e
  | .ok ids =>
    match remove_unfinished_segments dirents ids with
    | .panic => .panic
    | .err e => .err e
    | .ok kept =>
      .ok (⟨folder ++ [MANIFEST_FILE],
            buildSegmentMap (folder ++ [SEGMENTS_FOLDER]) ids⟩, kept)

/-- The sum `Σ total_uncompressed_bytes` over a snapshot of the segment
map's values. -/
def totalUncompressedSum (segs : List Segment) : Nat :=
  (segs.map (fun x => x.stats.total_uncompressed_bytes)).sum

/-- The sum `Σ stale_bytes` over a snapshot of the segment map's values. -/
def staleBytesSum (segs : List Segment) : Nat :=
  (segs.map (fun x => x.stats.stale_bytes)).sum

/-- `SegmentManifest::stale_ratio` from `manifest.rs`, over a snapshot of
the segment map's values, with `f32` idealized as `ℚ`: return `0` when the
uncompressed sum is `0`, return `0` when the stale sum is `0`, otherwise
divide. -/
def stale_ratio (segs : List Segment) : ℚ :=
  let used_bytes := totalUncompressedSum segs
  if used_bytes = 0 then 0
  else
    let stale_bytes := staleBytesSum segs
    if stale_bytes = 0 then 0
    else (stale_bytes : ℚ) / (used_bytes : ℚ)

/-- `SegmentManifest::space_amp` from `manifest.rs`, over a snapshot of the
segment map's values, with `f32` idealized as `ℚ`: return `0` when the
uncompressed sum is `0`; compute `alive = used − stale` in `u64`
arithmetic (here `Nat` truncated subtraction, which agrees with `u64`
subtraction whenever `stale ≤ used`); return `0` when `alive` is `0`,
otherwise divide. -/
def space_amp (segs : List Segment) : ℚ :=
  let used_bytes := totalUncompressedSum segs
  if used_bytes = 0 then 0
  else
    let stale_bytes := staleBytesSum segs
    let alive_bytes := used_bytes - stale_bytes
    if alive_bytes = 0 then 0
    else (used_bytes : ℚ) / (alive_bytes : ℚ)


/-- Helper segment for concrete witnesses: one item of 4 uncompressed bytes,
1 of them stale. -/
def segWitness : Segment := ⟨0, [], ⟨1, 4, 4, 0, 1⟩⟩

/-- C8: `CompressionType::try_from(tag)` succeeds exactly for tags 0 (`None`),
1 (`Lz4`) and 2 (`Miniz`), fails with `Err(())` on every other tag, and
round-trips with `u8::from`. -/
theorem c8_compression_tag_round_trip :
    (∀ t : Nat, (∃ c, CompressionType.tryFromU8 t = .ok c) ↔ (t = 0 ∨ t = 1 ∨ t = 2))
    ∧ (∀ t : Nat, t ≠ 0 → t ≠ 1 → t ≠ 2 → CompressionType.tryFromU8 t = .error ())
    ∧ (∀ c : CompressionType, CompressionType.tryFromU8 c.toU8 = .ok c) := by
  refine ⟨fun t => ?_, fun t h0 h1 h2 => ?_, fun c => ?_⟩
  · constructor
    · intro ⟨c, hc⟩
      by_contra h
      push_neg at h
      simp [CompressionType.tryFromU8, h.1, h.2.1, h.2.2] at hc
    · rintro (rfl | rfl | rfl) <;> exact ⟨_, rfl⟩
  · simp [CompressionType.tryFromU8, h0, h1, h2]
  · cases c <;> rfl

/-- C8 witness: tag 3 is rejected with `Err(())` and `Lz4` round-trips. -/
theorem c8_witness :
    CompressionType.tryFromU8 3 = .error ()
    ∧ CompressionType.tryFromU8 CompressionType.Lz4.toU8 = .ok CompressionType.Lz4 :=
  ⟨c8_compression_tag_round_trip.2.1 3 (by decide) (by decide) (by decide),
   c8_compression_tag_round_trip.2.2 CompressionType.Lz4⟩

/-- C7: `write_file_header` for `V1` emits exactly `V L G 0 1` and returns 5;
`parse_file_header` accepts those bytes as `V1`, and returns `None` on
inputs shorter than 5 bytes, on a wrong magic (for example `"FJX\x001"`),
and on any version field other than 1. -/
theorem c7_version_file_header :
    Version.write_file_header Version.V1 = ([86, 76, 71, 0, 1], 5)
    ∧ Version.parse_file_header [86, 76, 71, 0, 1] = some Version.V1
    ∧ (∀ bytes : List Nat, bytes.length < 5 → Version.parse_file_header bytes = none)
    ∧ (∀ b0 b1 b2 rest, [b0, b1, b2] ≠ MAGIC_BYTES →
        Version.parse_file_header (b0 :: b1 :: b2 :: rest) = none)
    ∧ Version.parse_file_header [70, 74, 88, 0, 1] = none
    ∧ (∀ hi lo rest, hi * 2 ^ 8 + lo ≠ 1 →
        Version.parse_file_header (86 :: 76 :: 71 :: hi :: lo :: rest) = none) := by
  refine ⟨rfl, rfl, fun bytes h => ?_, fun b0 b1 b2 rest hne => ?_, rfl,
    fun hi lo rest h => ?_⟩
  · unfold Version.parse_file_header
    cases h3 : sliceGet bytes 0 3 with
    | none => rfl
    | some ft =>
      have h5 : sliceGet bytes 3 5 = none := by
        simp only [sliceGet, ite_eq_right_iff]
        intro hc
        omega
      by_cases hm : ft = MAGIC_BYTES
      · simp [hm, h5]
      · simp [hm]
  · have h3 : sliceGet (b0 :: b1 :: b2 :: rest) 0 3 = some [b0, b1, b2] := by
      simp [sliceGet]
    unfold Version.parse_file_header
    rw [h3]
    simp [hne]
  · have h3 : sliceGet (86 :: 76 :: 71 :: hi :: lo :: rest) 0 3 = some [86, 76, 71] := by
      simp [sliceGet]
    have h5 : sliceGet (86 :: 76 :: 71 :: hi :: lo :: rest) 3 5 = some [hi, lo] := by
      simp [sliceGet]
    unfold Version.parse_file_header
    rw [h3]
    simp only [MAGIC_BYTES, if_pos rfl]
    rw [h5]
    simp [readU16BE, Version.tryFromU16]
    omega

/-- C7 witness: a 2-byte input, a wrong-magic input with trailing data, and
a magic-correct input with version field 2 are all rejected. -/
theorem c7_witness :
    Version.parse_file_header [86, 76] = none
    ∧ Version.parse_file_header [70, 74, 88, 0, 1, 9] = none
    ∧ Version.parse_file_header [86, 76, 71, 0, 2] = none :=
  ⟨c7_version_file_header.2.2.1 [86, 76] (by decide),
   c7_version_file_header.2.2.2.1 70 74 88 [0, 1, 9] (by decide),
   c7_version_file_header.2.2.2.2.2 0 2 [] (by decide)⟩

/-- C4: `stale_ratio` equals `Σ stale_bytes / Σ total_uncompressed_bytes`,
and `0` when the denominator is `0` (the extra early return the code takes
when `Σ stale_bytes = 0` agrees with the quotient, which is then `0`). -/
theorem c4_stale_ratio_formula (segs : List Segment) :
    stale_ratio segs =
      if totalUncompressedSum segs = 0 then 0
      else (staleBytesSum segs : ℚ) / (totalUncompressedSum segs : ℚ) := by
  by_cases h : totalUncompressedSum segs = 0
  · simp [stale_ratio, h]
  · by_cases hs : staleBytesSum segs = 0
    · simp [stale_ratio, h, hs]
    · simp [stale_ratio, h, hs]

/-- C3: `space_amp` equals
`Σ total_uncompressed_bytes / (Σ total_uncompressed_bytes − Σ stale_bytes)`,
and `0` when the uncompressed sum or the alive-bytes difference is `0`;
stated under the documented invariant `Σ stale_bytes ≤ Σ
total_uncompressed_bytes`, under which the code's `u64` subtraction is the
exact difference. -/
theorem c3_space_amp_formula (segs : List Segment)
    (h : staleBytesSum segs ≤ totalUncompressedSum segs) :
    space_amp segs =
      if totalUncompressedSum segs = 0
          ∨ (totalUncompressedSum segs : ℚ) - (staleBytesSum segs : ℚ) = 0 then 0
      else (totalUncompressedSum segs : ℚ)
          / ((totalUncompressedSum segs : ℚ) - (staleBytesSum segs : ℚ)) := by
  have hcast : ((totalUncompressedSum segs - staleBytesSum segs : ℕ) : ℚ)
      = (totalUncompressedSum segs : ℚ) - (staleBytesSum segs : ℚ) :=
    Nat.cast_sub h
  by_cases h0 : totalUncompressedSum segs = 0
  · simp [space_amp, h0]
  · by_cases ha : totalUncompressedSum segs - staleBytesSum segs = 0
    · have hq : (totalUncompressedSum segs : ℚ) - (staleBytesSum segs : ℚ) = 0 := by
        rw [← hcast, ha]
        norm_num
      simp [space_amp, h0, ha, hq]
    · have hq : (totalUncompressedSum segs : ℚ) - (staleBytesSum segs : ℚ) ≠ 0 := by
        rw [← hcast]
        exact_mod_cast ha
      rw [if_neg (by push_neg; exact ⟨h0, hq⟩)]
      simp only [space_amp]
      rw [if_neg h0, if_neg ha, hcast]

/-- C3 witness: one segment with 4 uncompressed bytes, 1 stale. -/
theorem c3_witness :
    staleBytesSum [segWitness] ≤ totalUncompressedSum [segWitness]
    ∧ space_amp [segWitness] =
        (if totalUncompressedSum [segWitness] = 0
            ∨ (totalUncompressedSum [segWitness] : ℚ)
                - (staleBytesSum [segWitness] : ℚ) = 0 then 0
         else (totalUncompressedSum [segWitness] : ℚ)
            / ((totalUncompressedSum [segWitness] : ℚ)
                - (staleBytesSum [segWitness] : ℚ))) :=
  ⟨by decide, c3_space_amp_formula [segWitness] (by decide)⟩

/-- Decoding a big-endian `u64` encoding recovers the value and leaves the
trailing bytes untouched. -/
theorem readU64BE_u64be (n : Nat) (rest : List Nat) (h : n < 2 ^ 64) :
    readU64BE (u64be n ++ rest) = .ok (n, rest) := by
  simp only [u64be, List.cons_append, List.nil_append, readU64BE,
    Except.ok.injEq, Prod.mk.injEq, and_true]
  omega

/-- `read_u64` fails with an I/O error on fewer than 8 bytes. -/
theorem readU64BE_short (l : List Nat) (h : l.length < 8) :
    readU64BE l = .error .ioError := by
  match l with
  | [] | [_] | [_, _] | [_, _, _] | [_, _, _, _] | [_, _, _, _, _]
  | [_, _, _, _, _, _] | [_, _, _, _, _, _, _] => rfl
  | _ :: _ :: _ :: _ :: _ :: _ :: _ :: _ :: _ =>
    simp only [List.length_cons] at h
    omega

/-- Reading back `ids.length` ids from their concatenated encodings yields
the ids and leaves any trailing bytes untouched. -/
theorem readIds_append (ids : List Nat) (rest : List Nat)
    (h : ∀ id ∈ ids, id < 2 ^ 64) :
    readIds ids.length ((ids.map u64be).flatten ++ rest) = .ok (ids, rest) := by
  induction ids generalizing rest with
  | nil => simp [readIds]
  | cons id ids ih =>
    have hid : id < 2 ^ 64 := h id (by simp)
    have h' : ∀ i ∈ ids, i < 2 ^ 64 := fun i hi => h i (by simp [hi])
    simp only [List.length_cons, List.map_cons, List.flatten_cons,
      List.append_assoc, readIds, readU64BE_u64be id _ hid, ih rest h']

/-- Reading `cnt` ids from a buffer with fewer than `8 * cnt` bytes fails
with an I/O error. -/
theorem readIds_short (cnt : Nat) (l : List Nat) (h : l.length < 8 * cnt) :
    readIds cnt l = .error .ioError := by
  induction cnt generalizing l with
  | zero => omega
  | succ cnt ih =>
    match l with
    | [] | [_] | [_, _] | [_, _, _] | [_, _, _, _] | [_, _, _, _, _]
    | [_, _, _, _, _, _] | [_, _, _, _, _, _, _] =>
      simp [readIds, readU64BE]
    | b0 :: b1 :: b2 :: b3 :: b4 :: b5 :: b6 :: b7 :: rest =>
      have hr : rest.length < 8 * cnt := by
        simp only [List.length_cons] at h
        omega
      simp only [readIds, readU64BE, ih rest hr]

/-- The concatenated id encodings occupy exactly 8 bytes each. -/
theorem map_u64be_flatten_length (ids : List Nat) :
    ((ids.map u64be).flatten).length = 8 * ids.length := by
  induction ids with
  | nil => rfl
  | cons id ids ih =>
    simp only [List.map_cons, List.flatten_cons, List.length_append, ih,
      List.length_cons, u64be, List.length_cons]
    simp [u64be]
    omega

/-- C5: the manifest bytes are a big-endian `u64` count followed by that
many big-endian `u64` ids (8 bytes each), and `load_ids_from_disk` decodes
them back to exactly the same id list, in order. -/
theorem c5_manifest_round_trip (ids : List Nat)
    (hids : ∀ id ∈ ids, id < 2 ^ 64) (hlen : ids.length < 2 ^ 64) :
    (write_to_disk_bytes ids).length = 8 + 8 * ids.length
    ∧ load_ids_from_disk (write_to_disk_bytes ids) = .ok ids := by
  constructor
  · simp only [write_to_disk_bytes, List.length_append, map_u64be_flatten_length]
    simp [u64be]
  · unfold load_ids_from_disk write_to_disk_bytes
    have hr := readIds_append ids [] hids
    rw [List.append_nil] at hr
    simp only [readU64BE_u64be _ _ hlen, hr]

/-- C5 witness: the two-id manifest `[3, 2 ^ 64 − 1]`. -/
theorem c5_witness :
    (∀ id ∈ [3, 2 ^ 64 - 1], id < 2 ^ 64) ∧ ([3, 2 ^ 64 - 1] : List Nat).length < 2 ^ 64
    ∧ (write_to_disk_bytes [3, 2 ^ 64 - 1]).length = 8 + 8 * ([3, 2 ^ 64 - 1] : List Nat).length
    ∧ load_ids_from_disk (write_to_disk_bytes [3, 2 ^ 64 - 1]) = .ok [3, 2 ^ 64 - 1] := by
  refine ⟨by decide, by decide, ?_⟩
  have h := c5_manifest_round_trip [3, 2 ^ 64 - 1] (by decide) (by decide)
  exact h

/-- C10: `load_ids_from_disk` fails with an I/O error whenever the buffer
holds fewer ids than its `u64` count prefix announces, and succeeds while
ignoring arbitrary bytes after the `count`-th id. -/
theorem c10_load_ids_truncation_and_trailing :
    (∀ bytes cnt rest, readU64BE bytes = .ok (cnt, rest) → rest.length < 8 * cnt →
        load_ids_from_disk bytes = .error .ioError)
    ∧ (∀ ids trailing : List Nat, (∀ id ∈ ids, id < 2 ^ 64) → ids.length < 2 ^ 64 →
        load_ids_from_disk (write_to_disk_bytes ids ++ trailing) = .ok ids) := by
  constructor
  · intro bytes cnt rest hread hlen
    unfold load_ids_from_disk
    simp only [hread, readIds_short cnt rest hlen]
  · intro ids trailing hids hlen
    unfold load_ids_from_disk write_to_disk_bytes
    rw [List.append_assoc]
    simp only [readU64BE_u64be _ _ hlen, readIds_append ids trailing hids]

/-- C10 witness: a count of 2 followed by a single id fails with an I/O
error; a one-id manifest followed by junk bytes decodes to the one id. -/
theorem c10_witness :
    load_ids_from_disk (u64be 2 ++ u64be 5) = .error .ioError
    ∧ load_ids_from_disk (write_to_disk_bytes [5] ++ [9, 9, 9]) = .ok [5] := by
  constructor
  · exact c10_load_ids_truncation_and_trailing.1 (u64be 2 ++ u64be 5) 2 (u64be 5)
      (by rfl) (by decide)
  · exact c10_load_ids_truncation_and_trailing.2 [5] [9, 9, 9] (by decide) (by decide)

/-- C1 counterexample: at a concrete path and id list (on non-Windows,
where the claim asserts the full protocol), the operation trace of
`write_to_disk` contains no fsync of the temporary file at all — the code
renames the temp file over the destination without syncing it first, so
the claimed protocol step "the temporary file is fsynced" does not
happen. -/
theorem c1_counterexample :
    FsOp.syncTempFile ∉ write_to_disk false ["db", "vlog_manifest"] [1, 2] := by
  decide

/-- C1 amended: `write_to_disk` persists the manifest by writing the
manifest bytes to a temporary file created in the destination's
directory, renaming the temporary file over the destination, and — after
the rename, skipped on Windows — opening and fsyncing the destination
file; the temporary file is never fsynced before the rename, and no other
file-system operation is performed. -/
theorem c1_write_to_disk_protocol (windows : Bool) (path : List String)
    (ids : List Nat) :
    write_to_disk windows path ids =
      [FsOp.createTempIn path.dropLast,
       FsOp.writeTempAll (write_to_disk_bytes ids),
       FsOp.persistTemp path] ++
        (if windows then [] else [FsOp.openFile path, FsOp.syncAll path])
    ∧ FsOp.syncTempFile ∉ write_to_disk windows path ids := by
  refine ⟨rfl, ?_⟩
  cases windows <;> simp [write_to_disk, rewrite_atomic]

/-- Looking a key up in a cons cell of the map. -/
theorem hmGet_cons (p : Nat × Segment) (m : List (Nat × Segment)) (k : Nat) :
    hmGet (p :: m) k = if p.1 = k then some p.2 else hmGet m k := by
  by_cases h : p.1 = k <;> simp [hmGet, List.find?_cons, h]

/-- Looking a key up after a `HashMap` insert: the new value at the
inserted key, the old map elsewhere. -/
theorem hmGet_hmInsert (m : List (Nat × Segment)) (k : Nat) (v : Segment)
    (k' : Nat) :
    hmGet (hmInsert m k v) k' = if k' = k then some v else hmGet m k' := by
  induction m with
  | nil =>
    simp only [hmInsert, List.filter_nil, List.nil_append]
    rw [hmGet_cons]
    by_cases h : k' = k
    · simp [h]
    · simp [h, Ne.symm h]
  | cons p m ih =>
    by_cases hpk : p.1 = k
    · have h1 : hmInsert (p :: m) k v = hmInsert m k v := by
        simp [hmInsert, List.filter_cons, hpk]
      rw [h1, ih, hmGet_cons]
      by_cases h : k' = k
      · simp [h]
      · have hpk' : p.1 ≠ k' := by rw [hpk]; exact fun hh => h hh.symm
        simp [h, hpk']
    · have h1 : hmInsert (p :: m) k v = p :: hmInsert m k v := by
        simp [hmInsert, List.filter_cons, hpk]
      rw [h1, hmGet_cons, ih, hmGet_cons]
      by_cases hpk' : p.1 = k'
      · have h : k' ≠ k := fun hh => hpk (hpk'.trans hh)
        simp [hpk', h]
      · simp [hpk']

/-- Inserting keeps the keys of the map duplicate-free. -/
theorem hmInsert_keys_nodup (m : List (Nat × Segment)) (k : Nat) (v : Segment)
    (h : (m.map Prod.fst).Nodup) :
    ((hmInsert m k v).map Prod.fst).Nodup := by
  unfold hmInsert
  rw [List.map_append, List.nodup_append]
  refine ⟨List.Nodup.sublist ((List.filter_sublist m).map Prod.fst) h, by simp, ?_⟩
  intro a ha hb
  have hak : a = k := by simpa using hb
  subst hak
  simp only [List.mem_map, List.mem_filter] at ha
  obtain ⟨p, ⟨_, hpk⟩, hpa⟩ := ha
  rw [hpa] at hpk
  simp at hpk

/-- The keys of the map built by `recover` are duplicate-free: exactly one
`Segment` descriptor per distinct id. -/
theorem buildSegmentMap_keys_nodup (sf : List String) (ids : List Nat) :
    ((buildSegmentMap sf ids).map Prod.fst).Nodup := by
  suffices h : ∀ m : List (Nat × Segment), (m.map Prod.fst).Nodup →
      ((ids.foldl (fun map id =>
        hmInsert map id ⟨id, sf ++ [toString id], Stats.default⟩) m).map
          Prod.fst).Nodup by
    exact h [] (by simp)
  induction ids with
  | nil => exact fun m hm => hm
  | cons id ids ih =>
    intro m hm
    simp only [List.foldl_cons]
    exact ih _ (hmInsert_keys_nodup m id _ hm)

/-- Lookup in the map built by `recover`: for an id in the manifest, a
fresh descriptor with path `segments/<id>` and default stats; `none`
otherwise. -/
theorem buildSegmentMap_get (sf : List String) (ids : List Nat) (k : Nat) :
    hmGet (buildSegmentMap sf ids) k =
      if k ∈ ids then some ⟨k, sf ++ [toString k], Stats.default⟩ else none := by
  suffices h : ∀ m : List (Nat × Segment),
      hmGet (ids.foldl (fun map id =>
        hmInsert map id ⟨id, sf ++ [toString id], Stats.default⟩) m) k =
      if k ∈ ids then some ⟨k, sf ++ [toString k], Stats.default⟩
      else hmGet m k by
    rw [buildSegmentMap, h []]
    by_cases hk : k ∈ ids <;> simp [hk, hmGet]
  induction ids with
  | nil => intro m; simp
  | cons id ids ih =>
    intro m
    simp only [List.foldl_cons]
    rw [ih]
    by_cases hk : k ∈ ids
    · simp [hk]
    · by_cases hkid : k = id
      · subst hkid
        simp [hk, hmGet_hmInsert]
      · simp [hk, hkid, hmGet_hmInsert, List.mem_cons]

/-- Every entry of the map built by `recover` carries default stats. -/
theorem buildSegmentMap_stats (sf : List String) (ids : List Nat) :
    ∀ p ∈ buildSegmentMap sf ids, p.2.stats = Stats.default := by
  suffices h : ∀ m : List (Nat × Segment), (∀ p ∈ m, p.2.stats = Stats.default) →
      ∀ p ∈ ids.foldl (fun map id =>
        hmInsert map id ⟨id, sf ++ [toString id], Stats.default⟩) m,
        p.2.stats = Stats.default from h [] (by simp)
  induction ids with
  | nil => exact fun m hm => hm
  | cons id ids ih =>
    intro m hm
    simp only [List.foldl_cons]
    refine ih _ ?_
    intro p hp
    simp only [hmInsert, List.mem_append, List.mem_singleton] at hp
    rcases hp with h1 | h1
    · exact hm p (List.mem_of_mem_filter h1)
    · subst h1
      rfl

/-- When the sweep returns `Ok`, the entries left on disk are exactly the
ones `direntKept` characterizes: non-directories, and directories whose
parsed id is registered. -/
theorem remove_unfinished_segments_ok (dirents : List Dirent)
    (registered : List Nat) (kept : List Dirent)
    (h : remove_unfinished_segments dirents registered = .ok kept) :
    kept = dirents.filter (direntKept registered) := by
  induction dirents generalizing kept with
  | nil =>
    simp only [remove_unfinished_segments] at h
    cases h
    rfl
  | cons d rest ih =>
    rw [remove_unfinished_segments] at h
    by_cases hd : d.isDir
    · cases hn : d.name with
      | none => simp [hd, hn] at h
      | some s =>
        cases hp : parseU64 s with
        | none => simp [hd, hn, hp] at h
        | some id =>
          cases hrec : remove_unfinished_segments rest registered with
          | err e => simp [hd, hn, hp, hrec] at h
          | panic => simp [hd, hn, hp, hrec] at h
          | ok kept' =>
            by_cases hc : id ∈ registered
            · simp [hd, hn, hp, hc, hrec] at h
              subst h
              simp [List.filter_cons, direntKept, hd, hn, hp, hc, ih kept' hrec]
            · simp [hd, hn, hp, hc, hrec] at h
              subst h
              simp [List.filter_cons, direntKept, hd, hn, hp, hc, ih kept' hrec]
    · cases hrec : remove_unfinished_segments rest registered with
      | err e => simp [hd, hrec] at h
      | panic => simp [hd, hrec] at h
      | ok kept' =>
        simp [hd, hrec] at h
        subst h
        simp [List.filter_cons, direntKept, hd, ih kept' hrec]

/-- A directory entry whose name is invalid UTF-8 or does not parse as a
decimal `u64` makes the sweep panic (the `expect` calls), wherever it
stands in the listing. -/
theorem remove_unfinished_segments_panic (dirents : List Dirent)
    (registered : List Nat)
    (h : ∃ d ∈ dirents, d.isDir ∧
      (d.name = none ∨ ∃ n, d.name = some n ∧ parseU64 n = none)) :
    remove_unfinished_segments dirents registered = .panic := by
  induction dirents with
  | nil => simp at h
  | cons d rest ih =>
    obtain ⟨d', hd', hbad⟩ := h
    rcases List.mem_cons.mp hd' with rfl | hmem
    · rw [remove_unfinished_segments]
      obtain ⟨hdir, hn | ⟨n, hn, hp⟩⟩ := hbad
      · simp [hdir, hn]
      · simp [hdir, hn, hp]
    · have hrec := ih ⟨d', hmem, hbad⟩
      rw [remove_unfinished_segments]
      by_cases hd : d.isDir
      · cases hn : d.name with
        | none => simp [hd, hn]
        | some s =>
          cases hp : parseU64 s with
          | none => simp [hd, hn, hp]
          | some id => simp [hd, hn, hp, hrec]
      · simp [hd, hrec]

/-- When every directory name under `segments/` is valid UTF-8 and parses
as a decimal `u64`, the sweep succeeds and keeps exactly the
`direntKept` entries. -/
theorem remove_unfinished_segments_total (dirents : List Dirent)
    (registered : List Nat)
    (h : ∀ d ∈ dirents, d.isDir → ∃ n k, d.name = some n ∧ parseU64 n = some k) :
    remove_unfinished_segments dirents registered =
      .ok (dirents.filter (direntKept registered)) := by
  induction dirents with
  | nil => rfl
  | cons d rest ih =>
    have hrest := ih (fun d' hd' => h d' (List.mem_cons_of_mem _ hd'))
    rw [remove_unfinished_segments]
    by_cases hd : d.isDir
    · obtain ⟨n, k, hn, hp⟩ := h d (List.mem_cons_self _ _) hd
      by_cases hc : k ∈ registered
      · simp [hd, hn, hp, hc, hrest, List.filter_cons, direntKept]
      · simp [hd, hn, hp, hc, hrest, List.filter_cons, direntKept]
    · simp [hd, hrest, List.filter_cons, direntKept]

/-- C2: after a successful `recover(folder)`, the in-memory map holds
exactly one `Segment` per id listed in the manifest, at path
`folder/segments/<id>`, and the directory entries still on disk are
exactly the non-directories and the directories whose id is registered —
every directory whose id is not in the manifest is gone. -/
theorem c2_recover_segment_map (folder : List String) (bytes : List Nat)
    (dirents : List Dirent) (st : SegmentManifestState) (kept : List Dirent)
    (ids : List Nat)
    (hids : load_ids_from_disk bytes = .ok ids)
    (h : recover folder bytes dirents = .ok (st, kept)) :
    (∀ id, hmGet st.segments id =
        if id ∈ ids then
          some ⟨id, (folder ++ [SEGMENTS_FOLDER]) ++ [toString id], Stats.default⟩
        else none)
    ∧ (st.segments.map Prod.fst).Nodup
    ∧ kept = dirents.filter (direntKept ids)
    ∧ ∀ d ∈ dirents, d.isDir →
        (∀ n k, d.name = some n → parseU64 n = some k → k ∉ ids) →
        d ∉ kept := by
  unfold recover at h
  simp only [hids] at h
  cases hrem : remove_unfinished_segments dirents ids with
  | panic => rw [hrem] at h; simp at h
  | err e => rw [hrem] at h; simp at h
  | ok kept' =>
    rw [hrem] at h
    simp only [Outcome.ok.injEq, Prod.mk.injEq] at h
    obtain ⟨h1, h2⟩ := h
    subst h1
    subst h2
    have hkept := remove_unfinished_segments_ok dirents ids kept' hrem
    refine ⟨fun id => buildSegmentMap_get _ ids id,
      buildSegmentMap_keys_nodup _ ids, hkept, ?_⟩
    intro d hd hdir hnotin hmem
    rw [hkept, List.mem_filter] at hmem
    have hk := hmem.2
    simp only [direntKept, hdir, Bool.not_true, Bool.false_or] at hk
    cases hn : d.name with
    | none => simp [hn] at hk
    | some n =>
      simp only [hn] at hk
      cases hp : parseU64 n with
      | none => simp [hp] at hk
      | some k =>
        simp only [hp] at hk
        exact hnotin n k hn hp (by simpa using hk)

/-- C2 witness: manifest ids `[0, 1]`; the unregistered directory
`segments/999` is removed by `recover` while `segments/0` survives, and
the map has no entry for 999. -/
theorem c2_witness :
    load_ids_from_disk (write_to_disk_bytes [0, 1]) = .ok [0, 1]
    ∧ recover ["db"] (write_to_disk_bytes [0, 1])
        [⟨some "0", true⟩, ⟨some "999", true⟩] =
        .ok (⟨["db", MANIFEST_FILE], buildSegmentMap ["db", SEGMENTS_FOLDER] [0, 1]⟩,
          [⟨some "0", true⟩])
    ∧ hmGet (buildSegmentMap ["db", SEGMENTS_FOLDER] [0, 1]) 999 = none
    ∧ Dirent.mk (some "999") true ∉ [Dirent.mk (some "0") true] := by
  have h1 : load_ids_from_disk (write_to_disk_bytes [0, 1]) = .ok [0, 1] := by rfl
  have h2 : recover ["db"] (write_to_disk_bytes [0, 1])
      [⟨some "0", true⟩, ⟨some "999", true⟩] =
      .ok (⟨["db", MANIFEST_FILE], buildSegmentMap ["db", SEGMENTS_FOLDER] [0, 1]⟩,
        [⟨some "0", true⟩]) := by rfl
  have h := c2_recover_segment_map ["db"] _ _ _ _ [0, 1] h1 h2
  refine ⟨h1, h2, ?_, ?_⟩
  · have h999 := h.1 999
    rw [if_neg (by decide)] at h999
    exact h999
  · refine h.2.2.2 ⟨some "999", true⟩ (by simp) rfl ?_
    intro n k hn hp
    have hn' : n = "999" := by
      injection hn with hn
      exact hn.symm
    subst hn'
    have hp' : (999 : Nat) = k := by
      have hpv : parseU64 "999" = some 999 := by rfl
      rw [hpv] at hp
      injection hp
    subst hp'
    decide

/-- C6: every `Segment` descriptor reconstructed by a successful `recover`
carries `Stats::default()` — all five counters zero — whatever the
segment files contain (`recover` never reads them). -/
theorem c6_recover_stats_default (folder : List String) (bytes : List Nat)
    (dirents : List Dirent) (st : SegmentManifestState) (kept : List Dirent)
    (h : recover folder bytes dirents = .ok (st, kept)) :
    ∀ p ∈ st.segments, p.2.stats = Stats.default := by
  unfold recover at h
  cases hl : load_ids_from_disk bytes with
  | error e => rw [hl] at h; simp at h
  | ok ids =>
    simp only [hl] at h
    cases hrem : remove_unfinished_segments dirents ids with
    | panic => rw [hrem] at h; simp at h
    | err e => rw [hrem] at h; simp at h
    | ok kept' =>
      rw [hrem] at h
      simp only [Outcome.ok.injEq, Prod.mk.injEq] at h
      obtain ⟨h1, h2⟩ := h
      subst h1
      exact buildSegmentMap_stats _ ids

/-- C6 witness: recovering a one-id manifest yields a descriptor whose
stats are all zero. -/
theorem c6_witness :
    recover ["db2"] (write_to_disk_bytes [7]) [] =
      .ok (⟨["db2", MANIFEST_FILE],
        [(7, ⟨7, ["db2", SEGMENTS_FOLDER, "7"], Stats.default⟩)]⟩, [])
    ∧ ((7, (⟨7, ["db2", SEGMENTS_FOLDER, "7"], Stats.default⟩ : Segment)) :
        Nat × Segment).2.stats = Stats.default := by
  have h2 : recover ["db2"] (write_to_disk_bytes [7]) [] =
      .ok (⟨["db2", MANIFEST_FILE],
        [(7, ⟨7, ["db2", SEGMENTS_FOLDER, "7"], Stats.default⟩)]⟩, []) := by rfl
  exact ⟨h2, c6_recover_stats_default ["db2"] _ _ _ _ h2 _ (by simp)⟩

/-- C9: `recover` panics (through the `expect` calls of
`remove_unfinished_segments`) whenever some directory under `segments/`
has a name that is invalid UTF-8 or does not parse as a decimal `u64`; it
neither returns an error nor removes that directory. Under the
precondition that every directory name parses, the sweep cannot panic and
`recover` returns `Ok`. -/
theorem c9_recover_panics_on_unparsable_names :
    (∀ (folder : List String) (bytes : List Nat) (dirents : List Dirent)
        (ids : List Nat),
      load_ids_from_disk bytes = .ok ids →
      (∃ d ∈ dirents, d.isDir ∧
        (d.name = none ∨ ∃ n, d.name = some n ∧ parseU64 n = none)) →
      recover folder bytes dirents = .panic)
    ∧ (∀ (folder : List String) (bytes : List Nat) (dirents : List Dirent)
        (ids : List Nat),
      load_ids_from_disk bytes = .ok ids →
      (∀ d ∈ dirents, d.isDir → ∃ n k, d.name = some n ∧ parseU64 n = some k) →
      recover folder bytes dirents =
        .ok (⟨folder ++ [MANIFEST_FILE],
            buildSegmentMap (folder ++ [SEGMENTS_FOLDER]) ids⟩,
          dirents.filter (direntKept ids))) := by
  constructor
  · intro folder bytes dirents ids hl hbad
    unfold recover
    simp only [hl, remove_unfinished_segments_panic dirents ids hbad]
  · intro folder bytes dirents ids hl hgood
    unfold recover
    simp only [hl, remove_unfinished_segments_total dirents ids hgood]

/-- C9 witness: with manifest ids `[4]`, a `segments/tmp` directory (name
not a number) and a non-UTF-8-named directory both make `recover` panic,
while a well-named listing recovers fine. -/
theorem c9_witness :
    load_ids_from_disk (write_to_disk_bytes [4]) = .ok [4]
    ∧ recover ["w"] (write_to_disk_bytes [4]) [⟨some "tmp", true⟩] = .panic
    ∧ recover ["w"] (write_to_disk_bytes [4]) [⟨none, true⟩] = .panic
    ∧ recover ["w"] (write_to_disk_bytes [4]) [⟨some "4", true⟩] =
        .ok (⟨["w", MANIFEST_FILE], buildSegmentMap ["w", SEGMENTS_FOLDER] [4]⟩,
          [⟨some "4", true⟩]) := by
  have h1 : load_ids_from_disk (write_to_disk_bytes [4]) = .ok [4] := by rfl
  refine ⟨h1, ?_, ?_, ?_⟩
  · exact c9_recover_panics_on_unparsable_names.1 ["w"] _ _ [4] h1
      ⟨⟨some "tmp", true⟩, by simp, rfl, Or.inr ⟨"tmp", rfl, by rfl⟩⟩
  · exact c9_recover_panics_on_unparsable_names.1 ["w"] _ _ [4] h1
      ⟨⟨none, true⟩, by simp, rfl, Or.inl rfl⟩
  · have h := c9_recover_panics_on_unparsable_names.2 ["w"] _ [⟨some "4", true⟩] [4] h1
      (by
        intro d hd hdir
        have hd' : d = ⟨some "4", true⟩ := by simpa using hd
        subst hd'
        exact ⟨"4", 4, rfl, by rfl⟩)
    exact h.trans (by rfl)
